import Mathlib

/-!
# ep2pchat: framed transport, codec and broadcast relay

A shallow embedding of `client/client.go`, `signer/secretbox.go`,
`server/server.go` and the key handling of `main.go`, followed by the
properties proved about them.

Conventions of the embedding:

* a byte is a `Fin 256`; Go's fixed-width integers are natural numbers or
  integers reduced modulo `2^64` wherever the source can wrap;
* a Go function returning `(value, error)` returns a pair whose second
  component is `none` for a nil error;
* a `net.Conn` is a pair of byte queues with two failure flags;
* a `*client.Client` is identified with the `ClientID` of the object it
  points to, and the objects live in `Server.objs`.
-/

namespace Ep2pchat

/-! ## Bytes and errors -/

/-- One octet. -/
abbrev Byte := Fin 256

/-- Go's conversion `byte(x)` of an unsigned integer: the low eight bits. -/
def byteOf (x : Nat) : Byte := ⟨x % 256, Nat.mod_lt x (by decide)⟩

/-- The bytes of an ASCII string literal. -/
def strBytes (s : String) : List Byte := s.toList.map (fun ch => byteOf ch.toNat)

/-- The error values that reach the code under study. -/
inductive Error where
  /-- Value `io.EOF`. -/
  | EOF
  /-- Value `io.ErrUnexpectedEOF`. -/
  | ErrUnexpectedEOF
  /-- A read, write or close on a connection that this end has closed. -/
  | ErrClosed
  /-- A write to a connection whose peer is gone. -/
  | ErrBrokenPipe
  /-- Text "Failed to decode message size bytes" (client.go, GetMsg). -/
  | FailedToDecodeSize
  /-- Text "Invalid message length for decode" (secretbox.go, Decode). -/
  | InvalidLength
  /-- Text "Failed to decode message" (secretbox.go, Decode). -/
  | FailedToDecode
  /-- Failure of `crypto/rand` while drawing a nonce. -/
  | RandFailure
  /-- A `base64.CorruptInputError` (its offset is not represented). -/
  | CorruptInput
  /-- A run-time panic `index out of range` inside `binary.PutUvarint`. -/
  | IndexOutOfRange
  deriving DecidableEq, Repr

/-! ## `encoding/binary`: signed variable-length integers -/

/-- Constant `binary.MaxVarintLen64`. -/
def MaxVarintLen64 : Nat := 10

/-- Function `binary.PutUvarint(buf, x)`: the loop
`for x >= 0x80 { buf[i] = byte(x) | 0x80; x >>= 7; i++ }; buf[i] = byte(x)`,
by recursion on the part of `buf` from index `i` on.  The result is the
buffer afterwards, or `none` when the index runs past the buffer (a panic). -/
def PutUvarint : List Byte → Nat → Option (List Byte)
  | [], _ => none
  | _ :: buf, x =>
    if 0x80 ≤ x then
      match PutUvarint buf (x >>> 7) with
      | none => none
      | some rest => some (byteOf (x % 256 ||| 0x80) :: rest)
    else some (byteOf x :: buf)

/-- The zigzag step of `binary.PutVarint`: `ux := uint64(x) << 1`, and
`ux = ^ux` when `x < 0`, on 64-bit words. -/
def zigzag (x : Int) : Nat :=
  let ux := ((x % 2 ^ 64).toNat * 2) % 2 ^ 64
  if x < 0 then 2 ^ 64 - 1 - ux else ux

/-- Function `binary.PutVarint(buf, x)`. -/
def PutVarint (buf : List Byte) (x : Int) : Option (List Byte) :=
  PutUvarint buf (zigzag x)

/-- The loop of `binary.Uvarint(buf)` over the bytes from index `i` on, with
the accumulator `x` and the shift `s`; the result is the pair `(value, n)`
where `n ≤ 0` signals failure. -/
def uvarintLoop : List Byte → Nat → Nat → Nat → Nat × Int
  | [], _, _, _ => (0, 0)
  | b :: buf, x, s, i =>
    if i = MaxVarintLen64 then (0, -((i : Int) + 1))
    else if b.val < 0x80 then
      if i = MaxVarintLen64 - 1 ∧ 1 < b.val then (0, -((i : Int) + 1))
      else (x ||| (b.val <<< s) % 2 ^ 64, (i : Int) + 1)
    else uvarintLoop buf (x ||| ((b.val &&& 0x7f) <<< s) % 2 ^ 64) (s + 7) (i + 1)

/-- Function `binary.Uvarint(buf)`. -/
def Uvarint (buf : List Byte) : Nat × Int := uvarintLoop buf 0 0 0

/-- Function `binary.Varint(buf)`: `x := int64(ux >> 1)`, and `x = ^x` when
the low bit of `ux` is set. -/
def Varint (buf : List Byte) : Int × Int :=
  let r := Uvarint buf
  let x : Int := ((r.1 >>> 1 : Nat) : Int)
  (if r.1 &&& 1 ≠ 0 then -x - 1 else x, r.2)

/-! ## `net.Conn` -/

/-- One end of a duplex byte stream. -/
structure Conn where
  /-- Bytes sent by the peer and not yet read; the peer closes after them. -/
  rx : List Byte
  /-- Bytes written to the peer so far. -/
  tx : List Byte
  /-- Whether `Close` has been called on this end. -/
  closed : Bool
  /-- Whether the peer is gone, so that writes fail. -/
  peerGone : Bool
  deriving DecidableEq, Repr

/-- A write of a whole slice, as `io.Copy(conn, bytes.NewReader(p))` does
it: one `Write` call that either accepts all of `p` or fails. -/
def Conn.Write (c : Conn) (p : List Byte) : Conn × Option Error :=
  if c.closed then (c, some Error.ErrClosed)
  else if c.peerGone then (c, some Error.ErrBrokenPipe)
  else ({ c with tx := c.tx ++ p }, none)

/-- Function `io.ReadFull(conn, buf)` for a buffer of `n > 0` bytes. -/
def Conn.ReadFull (c : Conn) (n : Nat) : Conn × List Byte × Option Error :=
  if c.closed then (c, [], some Error.ErrClosed)
  else if n ≤ c.rx.length then ({ c with rx := c.rx.drop n }, c.rx.take n, none)
  else if c.rx = [] then (c, [], some Error.EOF)
  else ({ c with rx := [] }, c.rx, some Error.ErrUnexpectedEOF)

/-- Function `io.CopyN(dst, conn, n)` for `n > 0`: fewer than `n` bytes
before the end of the stream is `io.EOF`. -/
def Conn.CopyN (c : Conn) (n : Nat) : Conn × List Byte × Option Error :=
  if c.closed then (c, [], some Error.ErrClosed)
  else if n ≤ c.rx.length then ({ c with rx := c.rx.drop n }, c.rx.take n, none)
  else ({ c with rx := [] }, c.rx, some Error.EOF)

/-- Method `conn.Close()`. -/
def Conn.Close (c : Conn) : Conn × Option Error :=
  if c.closed then (c, some Error.ErrClosed) else ({ c with closed := true }, none)

/-! ## `client/client.go` -/

/-- Type `ClientID` (a `uint64`). -/
abbrev ClientID := Nat

/-- Function `getID`: `atomic.AddUint64(&currentClientID, 1)` on the
process-wide counter, which is passed in and returned; the identity is the
counter after the addition. -/
def getID (currentClientID : Nat) : ClientID × Nat :=
  ((currentClientID + 1) % 2 ^ 64, (currentClientID + 1) % 2 ^ 64)

/-- Type `Client`.  The two mutexes are not represented; `cancelled` is the
state of the context made by `context.WithCancel`. -/
structure Client where
  /-- Field `conn`. -/
  conn : Conn
  /-- Field `id`. -/
  id : ClientID
  /-- Whether `cancel` has been called. -/
  cancelled : Bool
  deriving DecidableEq, Repr

/-- Function `NewClient`, threading the identity counter. -/
def NewClient (conn : Conn) (currentClientID : Nat) : Client × Nat :=
  let r := getID currentClientID
  ({ conn := conn, id := r.1, cancelled := false }, r.2)

/-- Method `GetID`. -/
def Client.GetID (c : Client) : ClientID := c.id

/-- The buffer made by `make([]byte, 8)`. -/
def sizeBuf : List Byte := List.replicate 8 0

/-- Method `SendMsg`. -/
def Client.SendMsg (c : Client) (msg : List Byte) : Client × Option Error :=
  match PutVarint sizeBuf (msg.length : Int) with
  | none => (c, some Error.IndexOutOfRange)
  | some sizeBytes =>
    let r := c.conn.Write (sizeBytes ++ msg)
    ({ c with conn := r.1 }, r.2)

/-- Method `GetMsg`: the client afterwards, the message and the error. -/
def Client.GetMsg (c : Client) : Client × List Byte × Option Error :=
  let r := c.conn.ReadFull 8
  match r.2.2 with
  | some err => ({ c with conn := r.1 }, [], some err)
  | none =>
    let v := Varint r.2.1
    if v.2 ≤ 0 ∨ v.1 ≤ 0 then
      ({ c with conn := r.1 }, [], some Error.FailedToDecodeSize)
    else
      let q := r.1.CopyN v.1.toNat
      match q.2.2 with
      | some err => ({ c with conn := q.1 }, [], some err)
      | none => ({ c with conn := q.1 }, q.2.1, none)

/-- Method `Done`. -/
def Client.Done (c : Client) : Bool := c.cancelled

/-- Method `Close`: `c.cancel()` and then `c.conn.Close()`. -/
def Client.Close (c : Client) : Client × Option Error :=
  let r := c.conn.Close
  ({ c with conn := r.1, cancelled := true }, r.2)

/-! ## `signer/cryptsigner.go` and `signer/secretbox.go` -/

/-- Interface `Signer`. -/
structure Signer where
  /-- Method `Encode`. -/
  Encode : List Byte → List Byte × Option Error
  /-- Method `Decode`. -/
  Decode : List Byte → List Byte × Option Error

/-- Modelled from the spec: the pass-through codec made by
`signer.NewClearText`, whose file is not among the sources; it "returns
input unchanged; never errors". -/
def NewClearText : Signer :=
  { Encode := fun rawMsg => (rawMsg, none), Decode := fun encMsg => (encMsg, none) }

/-- Constant `NonceLength`. -/
def NonceLength : Nat := 24

/-- Constant `KeyLength`. -/
def KeyLength : Nat := 32

/-- A Go array `[n]byte`. -/
abbrev Bytes (n : Nat) := { l : List Byte // l.length = n }

/-- The two functions used from `golang.org/x/crypto/nacl/secretbox`, taken
as parameters. -/
structure SecretboxPkg where
  /-- The bytes that `Seal(out, message, &nonce, &key)` appends to `out`. -/
  Seal : List Byte → Bytes NonceLength → Bytes KeyLength → List Byte
  /-- Result of `Open(nil, box, &nonce, &key)`: `none` stands for the
  library's `(nil, false)`, and `some m` for `(m, true)`. -/
  Open : List Byte → Bytes NonceLength → Bytes KeyLength → Option (List Byte)

/-- Type `Secretbox`. -/
structure Secretbox where
  /-- Field `key`. -/
  key : Bytes KeyLength

/-- Function `NewSecretBox`. -/
def NewSecretBox (key : Bytes KeyLength) : Secretbox := { key := key }

/-- Function `generateNonce`: `io.ReadFull(rand.Reader, nonce[:])`, where
`rnd` is what the random source delivers before it fails.  A short read
leaves the rest of the zero-initialised array untouched. -/
def generateNonce (rnd : List Byte) : Bytes NonceLength × Option Error :=
  if h : NonceLength ≤ rnd.length then
    (⟨rnd.take NonceLength, by simp only [List.length_take]; omega⟩, none)
  else
    (⟨rnd ++ List.replicate (NonceLength - rnd.length) 0, by
      simp only [List.length_append, List.length_replicate]; omega⟩, some Error.RandFailure)

/-- Method `Secretbox.Encode`. -/
def Secretbox.Encode (pkg : SecretboxPkg) (s : Secretbox) (rnd : List Byte)
    (rawMsg : List Byte) : List Byte × Option Error :=
  let r := generateNonce rnd
  match r.2 with
  | some err => ([], some err)
  | none => (r.1.val ++ pkg.Seal rawMsg r.1 s.key, none)

/-- Method `Secretbox.Decode`. -/
def Secretbox.Decode (pkg : SecretboxPkg) (s : Secretbox) (encMsg : List Byte) :
    List Byte × Option Error :=
  if h : encMsg.length < NonceLength then ([], some Error.InvalidLength)
  else
    let nonce : Bytes NonceLength :=
      ⟨encMsg.take NonceLength, by simp only [List.length_take]; omega⟩
    match pkg.Open (encMsg.drop NonceLength) nonce s.key with
    | none => ([], some Error.FailedToDecode)
    | some msg => (msg, none)

/-! ## `server/server.go` -/

/-- Type `Server`.  The listener, the context and the mutex are not
represented. -/
structure Server where
  /-- Field `signer`. -/
  signer : Signer
  /-- The keys of the map `clients`, in the order in which `range` visits
  them. -/
  clients : List ClientID
  /-- The object behind each `*client.Client`; the pointer to the client
  with identity `p` is `p` itself. -/
  objs : ClientID → Client

/-- The decimal digits that the verb `%d` prints. -/
def decimal (n : Nat) : List Byte := (Nat.toDigits 10 n).map (fun ch => byteOf ch.toNat)

/-- Value `fmt.Sprintf("%d: ", id)`. -/
def senderTag (id : ClientID) : List Byte := decimal id ++ strBytes ": "

/-- Value `fmt.Sprintf("Client %d has disconnected\n", id)`. -/
def disconnectedNotice (id : ClientID) : List Byte :=
  strBytes "Client " ++ decimal id ++ strBytes " has disconnected\n"

/-- Method `removeClient`: `delete(s.clients, client.GetID())` and then
`client.Close()`, whose error is dropped. -/
def Server.removeClient (s : Server) (p : ClientID) : Server :=
  { s with
    clients := s.clients.filter (fun k => decide (k ≠ (s.objs p).GetID)),
    objs := Function.update s.objs p (s.objs p).Close.1 }

/-- The goroutine that `BroadcastMsg` starts for one client (server.go lines
138-148), up to its `wg.Done()`: the server afterwards, and whether the send
failed, in which case the goroutine goes on to call `BroadcastMsg` with the
departure notice. -/
def Server.sendTo (encMsg : List Byte) (s : Server) (p : ClientID) : Server × Bool :=
  let r := (s.objs p).SendMsg encMsg
  let s1 := { s with objs := Function.update s.objs p r.1 }
  match r.2 with
  | some _ => (s1.removeClient p, true)
  | none => (s1, false)

/-- The loop of `BroadcastMsg` over the keys `l`. -/
def Server.fanOut (encMsg : List Byte) (l : List ClientID) (s : Server)
    (failed : List ClientID) : Server × List ClientID :=
  l.foldl
    (fun acc p =>
      let q := Server.sendTo encMsg acc.1 p
      (q.1, if q.2 then acc.2 ++ [p] else acc.2))
    (s, failed)

/-- Method `BroadcastMsg` up to its return: the server afterwards, the
returned error, and the clients whose send failed, each of which still owes a
`BroadcastMsg(disconnectedNotice id)` that can only start after this call has
released the lock.  Every goroutine deletes only its own key, which `range`
has already produced, so the loop visits the keys present at its start. -/
def Server.BroadcastMsg (s : Server) (msg : List Byte) :
    Server × Option Error × List ClientID :=
  let e := s.signer.Encode msg
  match e.2 with
  | some err => (s, some err, [])
  | none =>
    let r := Server.fanOut e.1 s.clients s []
    (r.1, none, r.2)

/-- One pass through the read loop of `Serve` for the client `p` (server.go
lines 77-91): the server afterwards, whether the loop goes round again, and
the clients whose failed send owes a departure broadcast. -/
def Server.readLoopBody (s : Server) (p : ClientID) : Server × Bool × List ClientID :=
  if (s.objs p).Done then (s, false, [])
  else
    let g := (s.objs p).GetMsg
    let s1 := { s with objs := Function.update s.objs p g.1 }
    match g.2.2 with
    | some _ => (s1, false, [])
    | none =>
      let d := s1.signer.Decode g.2.1
      match d.2 with
      | some _ => (s1, false, [])
      | none =>
        let b := s1.BroadcastMsg (senderTag (s1.objs p).GetID ++ d.1)
        (b.1, true, b.2.2)

/-- What the read-loop goroutine does once its loop has ended (server.go
lines 93-97): `removeClient` under the lock, then `BroadcastMsg` with the
departure notice. -/
def Server.readLoopExit (s : Server) (p : ClientID) : Server × List ClientID :=
  let s1 := s.removeClient p
  let b := s1.BroadcastMsg (disconnectedNotice (s1.objs p).GetID)
  (b.1, b.2.2)

/-- The read-loop goroutine of `Serve` for the client `p` (server.go lines
76-98), run for at most `fuel` passes; `none` when the loop has not ended by
then. -/
def Server.readLoop : Nat → Server → ClientID → Option (Server × List ClientID)
  | 0, _, _ => none
  | fuel + 1, s, p =>
    let r := s.readLoopBody p
    if r.2.1 then
      match Server.readLoop fuel r.1 p with
      | none => none
      | some q => some (q.1, r.2.2 ++ q.2)
    else
      let q := r.1.readLoopExit p
      some (q.1, r.2.2 ++ q.2)

/-- The identities given to connections accepted one after another, each by
`NewClient` (as `addClient` does), from the counter value `ctr`. -/
def newClients : List Conn → Nat → List Client
  | [], _ => []
  | conn :: rest, ctr =>
    let r := NewClient conn ctr
    r.1 :: newClients rest r.2

/-- The state of a client once the goroutine that `BroadcastMsg` starts for
it has reached `wg.Done()`: it has been sent `encMsg`, and closed when that
failed. -/
def afterSend (encMsg : List Byte) (c : Client) : Client :=
  match (c.SendMsg encMsg).2 with
  | some _ => (c.SendMsg encMsg).1.Close.1
  | none => (c.SendMsg encMsg).1

/-! ## `main.go`: the key -/

/-- The value of a character of the standard base64 alphabet. -/
def b64Value (ch : Char) : Option Nat :=
  let n := ch.toNat
  if 65 ≤ n ∧ n ≤ 90 then some (n - 65)
  else if 97 ≤ n ∧ n ≤ 122 then some (n - 97 + 26)
  else if 48 ≤ n ∧ n ≤ 57 then some (n - 48 + 52)
  else if n = 43 then some 62
  else if n = 47 then some 63
  else none

/-- The input without the `\r` and `\n` characters, which the decoder
skips. -/
def stripNewlines (cs : List Char) : List Char :=
  cs.filter (fun ch => decide (ch.toNat ≠ 10 ∧ ch.toNat ≠ 13))

/-- The decoding loop of `base64.StdEncoding`: `q` holds the values of the
current group of four characters, `out` the bytes decoded so far.  Padding
is required, and nothing but line breaks may follow it. -/
def decodeQuanta : List Char → List Nat → List Byte → List Byte × Option Error
  | [], q, out => if q = [] then (out, none) else (out, some Error.CorruptInput)
  | ch :: rest, q, out =>
    if ch.toNat = 10 ∨ ch.toNat = 13 then decodeQuanta rest q out
    else if ch.toNat = 61 then
      match q with
      | [a, b] =>
        match stripNewlines rest with
        | [pad] =>
          if pad.toNat = 61 then (out ++ [byteOf (a * 4 + b / 16)], none)
          else (out, some Error.CorruptInput)
        | _ => (out, some Error.CorruptInput)
      | [a, b, c] =>
        if stripNewlines rest = [] then
          (out ++ [byteOf (a * 4 + b / 16), byteOf (b % 16 * 16 + c / 4)], none)
        else (out, some Error.CorruptInput)
      | _ => (out, some Error.CorruptInput)
    else
      match b64Value ch with
      | none => (out, some Error.CorruptInput)
      | some v =>
        match q with
        | [a, b, c] =>
          decodeQuanta rest []
            (out ++ [byteOf (a * 4 + b / 16), byteOf (b % 16 * 16 + c / 4),
              byteOf (c % 4 * 64 + v)])
        | _ => decodeQuanta rest (q ++ [v]) out

/-- Function `base64.StdEncoding.DecodeString` (the bytes returned next to
an error are those of the complete groups before it; `main` drops them). -/
def DecodeString (s : String) : List Byte × Option Error := decodeQuanta s.toList [] []

/-- The codec chosen by the key handling of `main`. -/
inductive SignerChoice where
  /-- Value `signer.NewClearText()`. -/
  | clearText
  /-- Value `signer.NewSecretBox(keyArray)`. -/
  | secretBox (sb : Secretbox)

/-- The closure that `main` runs (main.go lines 47-201): the returned error
and the lines passed to `logErr` by the key handling.  `network sign` is the
error returned by everything from `if isServer` on (lines 65-200), which
listens or dials. -/
def startup (keyStr : String) (network : SignerChoice → Option Error) :
    Option Error × List String :=
  if keyStr = "" then (network SignerChoice.clearText, [])
  else
    let r := DecodeString keyStr
    if h : r.2 ≠ none ∨ r.1.length ≠ KeyLength then
      (r.2, ["Failed to decode 256-bit key from base64"])
    else
      (network (SignerChoice.secretBox (NewSecretBox ⟨r.1, by
        simp only [not_or, ne_eq, not_not] at h; exact h.2⟩)), [])

/-- The exit status of the process: `os.Exit(1)` when the closure returned
an error (main.go lines 203-206), and 0 when `main` returns. -/
def exitStatus (keyStr : String) (network : SignerChoice → Option Error) : Nat :=
  match (startup keyStr network).1 with
  | some _ => 1
  | none => 0

/-! ## Concrete states for the worked examples -/

/-- A connection on which nothing has happened yet. -/
def freshConn : Conn := { rx := [], tx := [], closed := false, peerGone := false }

/-- A connection whose peer has gone away. -/
def deadConn : Conn := { rx := [], tx := [], closed := false, peerGone := true }

/-- A client with the identity `id` on a fresh connection on which the bytes
`rx` are waiting to be read. -/
def idleClient (id : ClientID) (rx : List Byte) : Client :=
  { conn := { freshConn with rx := rx }, id := id, cancelled := false }

/-- A relay with the pass-through codec and the clients 1, 2 and 3; client 3
has the frame of the message "hi" waiting to be read. -/
def relayThree : Server :=
  { signer := NewClearText
    clients := [1, 2, 3]
    objs := fun p =>
      if p = 3 then idleClient 3 ([4, 0, 0, 0, 0, 0, 0, 0] ++ strBytes "hi")
      else idleClient p [] }

/-- A relay with the pass-through codec and the clients 1 and 2, where the
peer of client 2 has gone away. -/
def relayTwo : Server :=
  { signer := NewClearText
    clients := [1, 2]
    objs := fun p =>
      if p = 2 then { conn := deadConn, id := 2, cancelled := false }
      else idleClient p [] }

/-- A stand-in for the secretbox package: the box is the first key byte, the
first nonce byte and then the message itself. -/
def toyPkg : SecretboxPkg :=
  { Seal := fun message nonce key => key.val.take 1 ++ nonce.val.take 1 ++ message
    Open := fun box nonce key =>
      if box.take 2 = key.val.take 1 ++ nonce.val.take 1 then some (box.drop 2) else none }

/-- The key of 32 bytes `7`. -/
def toyKey : Bytes KeyLength := ⟨List.replicate 32 7, by decide⟩

/-! ## Properties -/

theorem byte_cont_facts : ∀ y, y < 256 →
    ((y ||| 128) % 256 = (y ||| 128) ∧ 128 ≤ (y ||| 128) ∧ (y ||| 128) &&& 127 = y % 128) := by
  set_option maxRecDepth 100000 in decide

theorem shift_split_add (x s : Nat) :
    (x % 128) <<< s + (x >>> 7) <<< (s + 7) = x <<< s := by
  rw [Nat.shiftLeft_eq, Nat.shiftLeft_eq, Nat.shiftRight_eq_div_pow, Nat.shiftLeft_eq]
  have h2 : (2:Nat) ^ (s + 7) = 128 * 2 ^ s := by rw [pow_add]; ring
  have hx := Nat.div_add_mod x 128
  rw [h2]
  show x % 128 * 2 ^ s + x / 128 * (128 * 2 ^ s) = x * 2 ^ s
  calc x % 128 * 2 ^ s + x / 128 * (128 * 2 ^ s) = (128 * (x / 128) + x % 128) * 2 ^ s := by ring
    _ = x * 2 ^ s := by rw [hx]

theorem shift_split (x s : Nat) :
    (x % 128) <<< s ||| (x >>> 7) <<< (s + 7) = x <<< s := by
  have hb : (x % 128) <<< s < 2 ^ (s + 7) := by
    have : x % 128 < 128 := Nat.mod_lt _ (by decide)
    have h2 : (2:Nat) ^ (s + 7) = 128 * 2 ^ s := by rw [pow_add]; ring
    rw [h2, Nat.shiftLeft_eq]
    exact Nat.mul_lt_mul_of_pos_right this (by positivity)
  have h := Nat.mul_add_lt_is_or hb (x >>> 7)
  rw [Nat.lor_comm, Nat.shiftLeft_eq (x >>> 7), Nat.mul_comm (x >>> 7), ← h,
    Nat.mul_comm, ← Nat.shiftLeft_eq, Nat.add_comm]
  exact shift_split_add x s

theorem uvarintLoop_put : ∀ (buf : List Byte) (x : Nat) (out : List Byte) (acc s i : Nat),
    PutUvarint buf x = some out → i + buf.length ≤ 9 → x <<< s < 2 ^ 64 →
    ∃ k, 0 < k ∧ k ≤ buf.length ∧ out.length = buf.length ∧ out.drop k = buf.drop k ∧
      uvarintLoop out acc s i = (acc ||| x <<< s, (i : Int) + (k : Int)) := by
  intro buf
  induction buf with
  | nil => intro x out acc s i h; simp [PutUvarint] at h
  | cons b buf ih =>
    intro x out acc s i h hi hx
    unfold PutUvarint at h
    by_cases hge : 0x80 ≤ x
    · rw [if_pos hge] at h
      cases hrec : PutUvarint buf (x >>> 7) with
      | none => rw [hrec] at h; simp at h
      | some rest =>
        rw [hrec] at h
        simp only [Option.some.injEq] at h
        subst h
        have hx' : (x >>> 7) <<< (s + 7) < 2 ^ 64 := by
          have := shift_split_add x s
          exact lt_of_le_of_lt (by rw [← this]; exact Nat.le_add_left _ _) hx
        have hlen : i + 1 + buf.length ≤ 9 := by simp at hi; omega
        obtain ⟨k, hk0, hkl, hlen', hdrop, hloop⟩ :=
          ih (x >>> 7) rest (acc ||| ((x % 128) <<< s) % 2 ^ 64) (s + 7) (i + 1) hrec hlen hx'
        refine ⟨k + 1, by omega, by simp; omega, by simp [hlen'], by simpa using hdrop, ?_⟩
        have hf := byte_cont_facts (x % 256) (Nat.mod_lt _ (by decide))
        have hmod : x % 256 % 128 = x % 128 := by omega
        have hb : (byteOf (x % 256 ||| 0x80)).val = (x % 256 ||| 128) := by
          simp only [byteOf]; exact hf.1
        unfold uvarintLoop
        have hi10 : i ≠ MaxVarintLen64 := by simp [MaxVarintLen64] at *; omega
        rw [if_neg hi10, hb, if_neg (by have := hf.2.1; omega)]
        have h127 : (x % 256 ||| 128) &&& 0x7f = x % 128 := by rw [← hmod]; exact hf.2.2
        rw [h127, hloop]
        have hlow : (x % 128) <<< s < 2 ^ 64 := by
          have := shift_split_add x s
          exact lt_of_le_of_lt (by rw [← this]; exact Nat.le_add_right _ _) hx
        rw [Nat.mod_eq_of_lt hlow, Nat.lor_assoc, shift_split]
        congr 1
        push_cast; ring
    · rw [if_neg hge] at h
      simp only [Option.some.injEq] at h
      subst h
      refine ⟨1, by omega, by simp, by simp, by simp, ?_⟩
      have hxlt : x < 128 := by omega
      have hb : (byteOf x).val = x := by simp only [byteOf]; omega
      unfold uvarintLoop
      have hi10 : i ≠ MaxVarintLen64 := by simp [MaxVarintLen64] at *; omega
      have hi9 : ¬ (i = MaxVarintLen64 - 1 ∧ 1 < (byteOf x).val) := by
        simp [MaxVarintLen64] at *; omega
      rw [if_neg hi10, hb, if_pos hxlt]
      rw [hb] at hi9
      rw [if_neg hi9, Nat.mod_eq_of_lt hx]
      rfl

theorem PutUvarint_fits : ∀ (buf : List Byte) (b : Byte) (x : Nat),
    x < 2 ^ (7 * (buf.length + 1)) → ∃ out, PutUvarint (b :: buf) x = some out := by
  intro buf
  induction buf with
  | nil =>
    intro b x h
    have hx : ¬ 0x80 ≤ x := by simp at h; omega
    exact ⟨_, by unfold PutUvarint; rw [if_neg hx]⟩
  | cons c buf ih =>
    intro b x hx
    unfold PutUvarint
    by_cases hge : 0x80 ≤ x
    · rw [if_pos hge]
      have : x >>> 7 < 2 ^ (7 * (buf.length + 1)) := by
        rw [Nat.shiftRight_eq_div_pow]
        apply Nat.div_lt_of_lt_mul
        have : 2 ^ (7 * ((c :: buf).length + 1)) = 2 ^ 7 * 2 ^ (7 * (buf.length + 1)) := by
          rw [← pow_add]; congr 1; simp; ring
        omega
      obtain ⟨out, ho⟩ := ih c _ this
      rw [ho]; exact ⟨_, rfl⟩
    · rw [if_neg hge]; exact ⟨_, rfl⟩

theorem zigzag_nonneg (n : Nat) (h : n < 2 ^ 63) : zigzag (n : Int) = 2 * n := by
  unfold zigzag
  have h1 : ((n : Int) % 2 ^ 64).toNat = n := by
    have : ((n : Int) % 2 ^ 64) = ((n % 2 ^ 64 : Nat) : Int) := by push_cast; rfl
    rw [this, Int.toNat_natCast, Nat.mod_eq_of_lt (by omega)]
  simp only [h1]
  rw [if_neg (by omega), Nat.mod_eq_of_lt (by omega)]
  ring

theorem header_spec (n : Nat) (h : n < 2 ^ 55) :
    ∃ (hdr : List Byte) (k : Nat), PutVarint sizeBuf (n : Int) = some hdr ∧ hdr.length = 8 ∧
      0 < k ∧ k ≤ 8 ∧ hdr.drop k = List.replicate (8 - k) 0 ∧
      Varint hdr = ((n : Int), (k : Int)) := by
  have hz := zigzag_nonneg n (by omega)
  obtain ⟨hdr, hput⟩ := PutUvarint_fits (List.replicate 7 0) 0 (2 * n) (by simp; omega)
  have hput' : PutUvarint sizeBuf (2 * n) = some hdr := hput
  obtain ⟨k, hk0, hk8, hlen, hdrop, hloop⟩ :=
    uvarintLoop_put sizeBuf (2 * n) hdr 0 0 0 hput' (by simp [sizeBuf])
      (by rw [Nat.shiftLeft_eq]; omega)
  refine ⟨hdr, k, by unfold PutVarint; rw [hz]; exact hput', by simpa [sizeBuf] using hlen,
    hk0, by simpa [sizeBuf] using hk8, ?_, ?_⟩
  · rw [hdrop]; show List.drop k (List.replicate 8 0) = _; rw [List.drop_replicate]
  · unfold Varint Uvarint
    rw [hloop]
    simp only [Nat.zero_or, Nat.shiftLeft_zero]
    have h1 : (2 * n) &&& 1 = 0 := by rw [Nat.and_one_is_mod]; omega
    have h2 : (2 * n) >>> 1 = n := by rw [Nat.shiftRight_eq_div_pow]; omega
    rw [h1, h2]
    simp

/-- Claim C1: for a message `m` with `0 < len(m) < 2^31`, `SendMsg` on a
writable connection appends to the stream an 8-byte header followed by `m`;
the header is what `PutVarint` leaves in the zeroed 8-byte buffer, it decodes
under `Varint` to `len(m)` from its first `k` bytes and is zero from there
on; and `GetMsg` on an open connection whose unread bytes start with that
frame returns `m` with no error and leaves exactly the bytes after the
frame unread. -/
theorem framing_round_trip (snd rcv : Client) (m rest : List Byte)
    (hpos : 0 < m.length) (hlt : m.length < 2 ^ 31)
    (hs : snd.conn.closed = false ∧ snd.conn.peerGone = false)
    (hr : rcv.conn.closed = false) :
    ∃ hdr : List Byte,
      PutVarint sizeBuf (m.length : Int) = some hdr ∧ hdr.length = 8 ∧
      snd.SendMsg m = ({ snd with conn := { snd.conn with tx := snd.conn.tx ++ (hdr ++ m) } }, none) ∧
      (∃ k : Nat, 0 < k ∧ k ≤ 8 ∧ Varint hdr = ((m.length : Int), (k : Int)) ∧
        hdr.drop k = List.replicate (8 - k) 0) ∧
      (rcv.conn.rx = hdr ++ m ++ rest →
        rcv.GetMsg = ({ rcv with conn := { rcv.conn with rx := rest } }, m, none)) := by
  obtain ⟨hdr, k, hput, hlen, hk0, hk8, hdrop, hvar⟩ := header_spec m.length (by omega)
  refine ⟨hdr, hput, hlen, ?_, ⟨k, hk0, hk8, hvar, hdrop⟩, ?_⟩
  · unfold Client.SendMsg
    rw [hput]
    simp [Conn.Write, hs.1, hs.2]
  · intro hrx
    have htake : List.take 8 (hdr ++ m ++ rest) = hdr := by
      rw [List.append_assoc, List.take_left' hlen]
    have hdrop8 : List.drop 8 (hdr ++ m ++ rest) = m ++ rest := by
      rw [List.append_assoc, List.drop_left' hlen]
    unfold Client.GetMsg
    simp only [Conn.ReadFull, hr, hrx, Bool.false_eq_true, if_false]
    rw [if_pos (by simp [hlen])]
    simp only [htake, hdrop8, hvar]
    rw [if_neg (by omega)]
    simp only [Conn.CopyN, hr, Bool.false_eq_true, if_false, Int.toNat_natCast]
    rw [if_pos (by simp)]
    simp

theorem GetMsg_bad_header (c : Client) (hdr rest : List Byte)
    (hlen : hdr.length = 8) (hopen : c.conn.closed = false) (hrx : c.conn.rx = hdr ++ rest)
    (hbad : (Varint hdr).2 ≤ 0 ∨ (Varint hdr).1 ≤ 0) :
    c.GetMsg = ({ c with conn := { c.conn with rx := rest } }, [],
      some Error.FailedToDecodeSize) := by
  have htake : List.take 8 (hdr ++ rest) = hdr := List.take_left' hlen
  have hdrop8 : List.drop 8 (hdr ++ rest) = rest := List.drop_left' hlen
  unfold Client.GetMsg
  simp only [Conn.ReadFull, hopen, hrx, Bool.false_eq_true, if_false]
  rw [if_pos (by simp [hlen])]
  simp only [htake, hdrop8]
  rw [if_pos hbad]

theorem uvarintLoop_fails_iff : ∀ (buf : List Byte) (x s i : Nat), i + buf.length ≤ 9 →
    ((uvarintLoop buf x s i).2 ≤ 0 ↔ ∀ b ∈ buf, 0x80 ≤ b.val) := by
  intro buf
  induction buf with
  | nil => intro x s i _; simp [uvarintLoop]
  | cons b buf ih =>
    intro x s i hi
    have hi10 : i ≠ MaxVarintLen64 := by simp [MaxVarintLen64] at *; omega
    have hi9 : ¬ (i = MaxVarintLen64 - 1 ∧ 1 < b.val) := by
      simp [MaxVarintLen64] at *; omega
    unfold uvarintLoop
    rw [if_neg hi10]
    by_cases hb : b.val < 0x80
    · rw [if_pos hb, if_neg hi9]
      constructor
      · intro h
        have : (0 : Int) ≤ (i : Int) := Int.natCast_nonneg i
        simp only at h
        omega
      · intro h
        have := h b (List.mem_cons_self _ _)
        omega
    · rw [if_neg hb]
      rw [ih _ _ (i + 1) (by simp at hi; omega)]
      constructor
      · intro h c hc
        rcases List.mem_cons.mp hc with rfl | hc
        · omega
        · exact h c hc
      · intro h c hc
        exact h c (List.mem_cons_of_mem _ hc)

/-- Claim C2: when the eight header bytes at the front of an open connection
do not decode (`Varint` reports `n ≤ 0`) or decode to a size that is zero or
negative, `GetMsg` returns the error "Failed to decode message size bytes"
and no message, and it has read the eight header bytes and nothing after
them; and the decoding of eight bytes fails exactly when none of them ends
the varint, that is when each has its top bit set. -/
theorem nonpositive_length_rejected (c : Client) (hdr rest : List Byte)
    (hlen : hdr.length = 8) (hopen : c.conn.closed = false) (hrx : c.conn.rx = hdr ++ rest)
    (hbad : (Varint hdr).2 ≤ 0 ∨ (Varint hdr).1 ≤ 0) :
    c.GetMsg = ({ c with conn := { c.conn with rx := rest } }, [],
      some Error.FailedToDecodeSize) ∧
    ((Varint hdr).2 ≤ 0 ↔ ∀ b ∈ hdr, 0x80 ≤ b.val) := by
  constructor
  · have htake : List.take 8 (hdr ++ rest) = hdr := List.take_left' hlen
    have hdrop8 : List.drop 8 (hdr ++ rest) = rest := List.drop_left' hlen
    unfold Client.GetMsg
    simp only [Conn.ReadFull, hopen, hrx, Bool.false_eq_true, if_false]
    rw [if_pos (by simp [hlen])]
    simp only [htake, hdrop8]
    rw [if_pos hbad]
  · exact uvarintLoop_fails_iff hdr 0 0 0 (by omega)

/-- Claim C10: `SendMsg` of the empty message on a writable connection
returns no error and writes eight zero bytes and nothing else; `GetMsg` on an
open connection whose unread bytes start with those eight bytes returns the
error "Failed to decode message size bytes", whatever follows them. -/
theorem empty_message_unreceivable (snd rcv : Client) (rest : List Byte)
    (hs : snd.conn.closed = false ∧ snd.conn.peerGone = false)
    (hr : rcv.conn.closed = false) :
    snd.SendMsg [] =
      ({ snd with conn := { snd.conn with tx := snd.conn.tx ++ List.replicate 8 0 } }, none) ∧
    (rcv.conn.rx = List.replicate 8 0 ++ rest →
      rcv.GetMsg = ({ rcv with conn := { rcv.conn with rx := rest } }, [],
        some Error.FailedToDecodeSize)) := by
  constructor
  · have hput : PutVarint sizeBuf ((([] : List Byte).length : Nat) : Int) =
        some (List.replicate 8 0) := by decide
    unfold Client.SendMsg
    rw [hput]
    simp [Conn.Write, hs.1, hs.2]
  · intro hrx
    exact GetMsg_bad_header rcv (List.replicate 8 0) rest (by simp) hr hrx
      (by decide)


theorem SendMsg_id (c : Client) (e : List Byte) : (c.SendMsg e).1.id = c.id := by
  unfold Client.SendMsg
  cases PutVarint sizeBuf (e.length : Int) <;> rfl

theorem sendTo_spec (e : List Byte) (s : Server) (p : ClientID) (hid : (s.objs p).id = p) :
    (Server.sendTo e s p).1.signer = s.signer ∧
    (Server.sendTo e s p).1.objs = Function.update s.objs p (afterSend e (s.objs p)) ∧
    (Server.sendTo e s p).1.clients =
      s.clients.filter (fun k => decide (¬ (k = p ∧ ((s.objs p).SendMsg e).2 ≠ none))) ∧
    (Server.sendTo e s p).2 = decide (((s.objs p).SendMsg e).2 ≠ none) := by
  unfold Server.sendTo afterSend
  cases h : ((s.objs p).SendMsg e).2 with
  | none =>
    simp [h]
  | some err =>
    have hid2 : ((s.objs p).SendMsg e).1.id = p := by rw [SendMsg_id, hid]
    simp [h, Server.removeClient, Client.GetID, hid2]

theorem fanOut_spec (e : List Byte) : ∀ (l : List ClientID) (s : Server) (acc : List ClientID),
    l.Nodup → (∀ q ∈ l, (s.objs q).id = q) →
    (Server.fanOut e l s acc).1.signer = s.signer ∧
    (∀ q, (Server.fanOut e l s acc).1.objs q =
      if q ∈ l then afterSend e (s.objs q) else s.objs q) ∧
    (Server.fanOut e l s acc).1.clients =
      s.clients.filter (fun k => decide (¬ (k ∈ l ∧ ((s.objs k).SendMsg e).2 ≠ none))) ∧
    (Server.fanOut e l s acc).2 =
      acc ++ l.filter (fun k => decide (((s.objs k).SendMsg e).2 ≠ none)) := by
  intro l
  induction l with
  | nil => intro s acc _ _; simp [Server.fanOut]
  | cons p l ih =>
    intro s acc hnd hid
    have hp : (s.objs p).id = p := hid p (List.mem_cons_self _ _)
    obtain ⟨h1, h2, h3, h4⟩ := sendTo_spec e s p hp
    have hpl : p ∉ l := (List.nodup_cons.mp hnd).1
    have hnd' : l.Nodup := (List.nodup_cons.mp hnd).2
    have hobj : ∀ q, q ≠ p → (Server.sendTo e s p).1.objs q = s.objs q := by
      intro q hq; rw [h2, Function.update_noteq hq]
    have hid' : ∀ q ∈ l, ((Server.sendTo e s p).1.objs q).id = q := by
      intro q hq
      have : q ≠ p := fun h => hpl (h ▸ hq)
      rw [hobj q this]; exact hid q (List.mem_cons_of_mem _ hq)
    have hstep : Server.fanOut e (p :: l) s acc =
        Server.fanOut e l (Server.sendTo e s p).1
          (if (Server.sendTo e s p).2 then acc ++ [p] else acc) := by
      simp [Server.fanOut]
    obtain ⟨i1, i2, i3, i4⟩ := ih (Server.sendTo e s p).1
      (if (Server.sendTo e s p).2 then acc ++ [p] else acc) hnd' hid'
    rw [hstep]
    refine ⟨by rw [i1, h1], ?_, ?_, ?_⟩
    · intro q
      rw [i2 q]
      by_cases hq : q = p
      · subst hq
        simp [hpl, h2]
      · by_cases hql : q ∈ l
        · simp [hql, hobj q hq]
        · simp [hql, hq, hobj q hq]
    · rw [i3, h3, List.filter_filter]
      apply List.filter_congr
      intro k _
      by_cases hk : k = p
      · subst hk
        simp [hpl]
      · simp [hk, hobj k hk]
    · rw [i4, h4]
      have hfil : l.filter (fun k => decide ((((Server.sendTo e s p).1.objs k).SendMsg e).2 ≠ none)) =
          l.filter (fun k => decide (((s.objs k).SendMsg e).2 ≠ none)) := by
        apply List.filter_congr
        intro k hk
        have : k ≠ p := fun h => hpl (h ▸ hk)
        rw [hobj k this]
      rw [hfil, List.filter_cons]
      by_cases hf : ((s.objs p).SendMsg e).2 = none
      · simp [hf]
      · simp [hf]


theorem GetMsg_id (c : Client) : c.GetMsg.1.id = c.id := by
  unfold Client.GetMsg
  dsimp only
  split
  · rfl
  · split
    · rfl
    · split <;> rfl

theorem BroadcastMsg_spec (s : Server) (msg e : List Byte)
    (hnd : s.clients.Nodup) (hid : ∀ q ∈ s.clients, (s.objs q).id = q)
    (henc : s.signer.Encode msg = (e, none)) :
    (s.BroadcastMsg msg).2.1 = none ∧
    (∀ q, (s.BroadcastMsg msg).1.objs q =
      if q ∈ s.clients then afterSend e (s.objs q) else s.objs q) ∧
    (s.BroadcastMsg msg).1.clients =
      s.clients.filter (fun k => decide (((s.objs k).SendMsg e).2 = none)) ∧
    (s.BroadcastMsg msg).2.2 =
      s.clients.filter (fun k => decide (((s.objs k).SendMsg e).2 ≠ none)) := by
  obtain ⟨_, h2, h3, h4⟩ := fanOut_spec e s.clients s [] hnd hid
  have hB : s.BroadcastMsg msg =
      ((Server.fanOut e s.clients s []).1, none, (Server.fanOut e s.clients s []).2) := by
    unfold Server.BroadcastMsg
    simp only [henc]
  rw [hB]
  refine ⟨rfl, h2, ?_, by simpa using h4⟩
  show (Server.fanOut e s.clients s []).1.clients = _
  rw [h3]
  apply List.filter_congr
  intro k hk
  simp [hk]

/-- Claim C8: when `Encode` succeeds, `BroadcastMsg` returns no error
whichever sends fail: the registry afterwards holds exactly the clients whose send
succeeded, a departure broadcast is owed for exactly the clients whose send
failed, every client whose send failed is gone from the registry and has been
closed (connection closed, context cancelled), and every client whose send
succeeded is still registered. -/
theorem send_failure_isolated (s : Server) (msg e : List Byte)
    (hnd : s.clients.Nodup) (hid : ∀ q ∈ s.clients, (s.objs q).id = q)
    (henc : s.signer.Encode msg = (e, none)) :
    (s.BroadcastMsg msg).2.1 = none ∧
    (s.BroadcastMsg msg).1.clients =
      s.clients.filter (fun k => decide (((s.objs k).SendMsg e).2 = none)) ∧
    (s.BroadcastMsg msg).2.2 =
      s.clients.filter (fun k => decide (((s.objs k).SendMsg e).2 ≠ none)) ∧
    ∀ q ∈ s.clients,
      (((s.objs q).SendMsg e).2 ≠ none →
        q ∉ (s.BroadcastMsg msg).1.clients ∧
        ((s.BroadcastMsg msg).1.objs q).conn.closed = true ∧
        ((s.BroadcastMsg msg).1.objs q).Done = true) ∧
      (((s.objs q).SendMsg e).2 = none → q ∈ (s.BroadcastMsg msg).1.clients) := by
  obtain ⟨h1, h2, h3, h4⟩ := BroadcastMsg_spec s msg e hnd hid henc
  refine ⟨h1, h3, h4, ?_⟩
  intro q hq
  constructor
  · intro hfail
    refine ⟨?_, ?_, ?_⟩
    · rw [h3]; simp [hfail]
    · rw [h2 q, if_pos hq]
      unfold afterSend
      cases hr : ((s.objs q).SendMsg e).2 with
      | none => exact absurd hr hfail
      | some err =>
        simp only [Client.Close, Conn.Close]
        split <;> simp_all
    · rw [h2 q, if_pos hq]
      unfold afterSend
      cases hr : ((s.objs q).SendMsg e).2 with
      | none => exact absurd hr hfail
      | some err => simp [Client.Close, Client.Done]
  · intro hok
    rw [h3]; simp [hq, hok]

/-- Claim C5: in a registered sender's pass through the read loop, a frame
that the codec decodes to `plain` makes the loop call `BroadcastMsg` with the
decimal identity, a colon, a space and `plain`; `BroadcastMsg` calls `SendMsg`
with the encoding of those bytes on every registered client, the sender
included (a client whose send fails is closed). -/
theorem broadcast_fan_out (s : Server) (p : ClientID) (c' : Client) (enc plain e : List Byte)
    (hnd : s.clients.Nodup) (hid : ∀ q ∈ s.clients, (s.objs q).id = q)
    (hp : p ∈ s.clients) (hdone : (s.objs p).Done = false)
    (hget : (s.objs p).GetMsg = (c', enc, none))
    (hdec : s.signer.Decode enc = (plain, none))
    (henc : s.signer.Encode (decimal p ++ strBytes ": " ++ plain) = (e, none)) :
    s.readLoopBody p =
      ((({ s with objs := Function.update s.objs p c' } : Server).BroadcastMsg
          (decimal p ++ strBytes ": " ++ plain)).1, true,
        (({ s with objs := Function.update s.objs p c' } : Server).BroadcastMsg
          (decimal p ++ strBytes ": " ++ plain)).2.2) ∧
    ∀ q ∈ s.clients,
      ((s.readLoopBody p).1.objs q) =
        if (((if q = p then c' else s.objs q).SendMsg e).2 = none)
        then ((if q = p then c' else s.objs q).SendMsg e).1
        else ((if q = p then c' else s.objs q).SendMsg e).1.Close.1 := by
  have hc' : c'.id = p := by
    have := GetMsg_id (s.objs p)
    rw [hget] at this
    rw [this]; exact hid p hp
  have hbody : s.readLoopBody p =
      ((({ s with objs := Function.update s.objs p c' } : Server).BroadcastMsg
          (decimal p ++ strBytes ": " ++ plain)).1, true,
        (({ s with objs := Function.update s.objs p c' } : Server).BroadcastMsg
          (decimal p ++ strBytes ": " ++ plain)).2.2) := by
    unfold Server.readLoopBody
    simp only [hdone, hget, hdec, Bool.false_eq_true, if_false]
    simp [senderTag, Client.GetID, hc']
  refine ⟨hbody, ?_⟩
  intro q hq
  have hid1 : ∀ k ∈ ({ s with objs := Function.update s.objs p c' } : Server).clients,
      ((({ s with objs := Function.update s.objs p c' } : Server).objs k)).id = k := by
    intro k hk
    by_cases hkp : k = p
    · subst hkp; simpa using hc'
    · simpa [Function.update_noteq hkp] using hid k hk
  obtain ⟨_, h2, _, _⟩ := BroadcastMsg_spec
    ({ s with objs := Function.update s.objs p c' } : Server)
    (decimal p ++ strBytes ": " ++ plain) e hnd hid1 henc
  rw [hbody]
  show (({ s with objs := Function.update s.objs p c' } : Server).BroadcastMsg
          (decimal p ++ strBytes ": " ++ plain)).1.objs q = _
  rw [h2 q, if_pos hq]
  have hobj : ({ s with objs := Function.update s.objs p c' } : Server).objs q =
      if q = p then c' else s.objs q := by
    by_cases hqp : q = p
    · subst hqp; simp
    · simp [Function.update_noteq hqp, hqp]
  rw [hobj]
  unfold afterSend
  cases hr : ((if q = p then c' else s.objs q).SendMsg e).2 <;> simp


/-- Claim C3: with a nonce that `generateNonce` has drawn without error, and a
package whose `Open` inverts `Seal` under the same nonce and key, `Encode`
returns the 24-byte nonce followed by the sealed box and no error, and
`Decode` with the same key returns the message and no error. -/
theorem secretbox_round_trip (pkg : SecretboxPkg) (s : Secretbox) (rnd m : List Byte)
    (hnonce : (generateNonce rnd).2 = none)
    (hinv : ∀ msg nonce key, pkg.Open (pkg.Seal msg nonce key) nonce key = some msg) :
    s.Encode pkg rnd m =
      ((generateNonce rnd).1.val ++ pkg.Seal m (generateNonce rnd).1 s.key, none) ∧
    (generateNonce rnd).1.val.length = 24 ∧
    (s.Encode pkg rnd m).1.take 24 = (generateNonce rnd).1.val ∧
    (s.Encode pkg rnd m).1.drop 24 = pkg.Seal m (generateNonce rnd).1 s.key ∧
    s.Decode pkg (s.Encode pkg rnd m).1 = (m, none) := by
  have hlen : (generateNonce rnd).1.val.length = 24 := (generateNonce rnd).1.property
  have henc : s.Encode pkg rnd m =
      ((generateNonce rnd).1.val ++ pkg.Seal m (generateNonce rnd).1 s.key, none) := by
    unfold Secretbox.Encode
    simp only [hnonce]
  refine ⟨henc, hlen, ?_, ?_, ?_⟩
  · rw [henc]; exact List.take_left' hlen
  · rw [henc]; exact List.drop_left' hlen
  · rw [henc]
    unfold Secretbox.Decode
    rw [dif_neg (by simp [NonceLength, hlen])]
    have hl : (generateNonce rnd).1.val.length = NonceLength := hlen
    simp only [List.take_left' hl, List.drop_left' hl, Subtype.coe_eta, hinv]

/-- Claim C4: `Decode` fails with the invalid-length error exactly when the
payload is shorter than 24 bytes, and then whatever the package is (nothing
is opened); on a payload of at least 24 bytes it opens `p[24:]` with the
nonce `p[:24]` and the key, fails with the authentication error exactly when
the open is rejected, and returns the opened plaintext with no error
otherwise; a failure returns the empty message. -/
theorem decode_classification (pkg : SecretboxPkg) (s : Secretbox) (p : List Byte) :
    ((s.Decode pkg p).2 = some Error.InvalidLength ↔ p.length < 24) ∧
    (p.length < 24 → ∀ pkg2 : SecretboxPkg, s.Decode pkg2 p = ([], some Error.InvalidLength)) ∧
    (∀ h : 24 ≤ p.length,
      ((s.Decode pkg p).2 = some Error.FailedToDecode ↔
        pkg.Open (p.drop 24) ⟨p.take 24, by simp only [List.length_take, NonceLength]; omega⟩ s.key = none) ∧
      ∀ msg, pkg.Open (p.drop 24) ⟨p.take 24, by simp only [List.length_take, NonceLength]; omega⟩ s.key =
          some msg → s.Decode pkg p = (msg, none)) ∧
    ((s.Decode pkg p).2 ≠ none → (s.Decode pkg p).1 = []) := by
  have hshort : p.length < 24 → ∀ pkg2 : SecretboxPkg,
      s.Decode pkg2 p = ([], some Error.InvalidLength) := by
    intro h pkg2
    unfold Secretbox.Decode
    rw [dif_pos (by simpa [NonceLength] using h)]
  have hlong : ∀ h : 24 ≤ p.length, s.Decode pkg p =
      match pkg.Open (p.drop 24) ⟨p.take 24, by simp only [List.length_take, NonceLength]; omega⟩ s.key with
      | none => ([], some Error.FailedToDecode)
      | some msg => (msg, none) := by
    intro h
    unfold Secretbox.Decode
    rw [dif_neg (by simp [NonceLength]; omega)]
    rfl
  refine ⟨?_, hshort, ?_, ?_⟩
  · constructor
    · intro h
      by_contra hc
      rw [hlong (by omega)] at h
      split at h <;> simp at h
    · intro h; rw [hshort h pkg]
  · intro h
    constructor
    · rw [hlong h]
      constructor
      · intro hh; split at hh
        · assumption
        · simp at hh
      · intro hh; rw [hh]
    · intro msg hm; rw [hlong h, hm]
  · intro h
    by_cases hl : p.length < 24
    · rw [hshort hl pkg]
    · rw [hlong (by omega)] at h ⊢
      split
      · rfl
      · rename_i msg hm; rw [hm] at h; simp at h

theorem newClients_ids : ∀ (conns : List Conn) (ctr : Nat), ctr + conns.length < 2 ^ 64 →
    (newClients conns ctr).map Client.GetID = List.range' (ctr + 1) conns.length := by
  intro conns
  induction conns with
  | nil => intro ctr _; rfl
  | cons conn rest ih =>
    intro ctr h
    have h1 : (ctr + 1) % 2 ^ 64 = ctr + 1 := Nat.mod_eq_of_lt (by simp at h; omega)
    have hrest := ih (ctr + 1) (by simp at h; omega)
    simp only [newClients, NewClient, getID, h1, List.map_cons, List.length_cons,
      List.range'_succ, hrest, Client.GetID]

/-- Claim C9: the identities given to connections created one after another from
the counter value `ctr`, while the counter stays below `2^64`, are
`ctr + 1, ctr + 2, ...`: strictly increasing in creation order, each one more
than the one before, and pairwise distinct. -/
theorem identity_uniqueness (conns : List Conn) (ctr : Nat)
    (h : ctr + conns.length < 2 ^ 64) :
    (newClients conns ctr).map Client.GetID = List.range' (ctr + 1) conns.length ∧
    ((newClients conns ctr).map Client.GetID).Pairwise (fun a b => a < b) ∧
    ((newClients conns ctr).map Client.GetID).Chain (fun a b => b = a + 1) ctr ∧
    ((newClients conns ctr).map Client.GetID).Nodup := by
  rw [newClients_ids conns ctr h]
  refine ⟨rfl, ?_, ?_, List.nodup_range' _ _⟩
  · exact List.pairwise_lt_range' _ _
  · exact List.chain_succ_range' ctr conns.length 1

/-- A non-empty key that is not valid base64 makes the closure return the
decoding error, and the exit status is 1. -/
theorem startup_corrupt_key (keyStr : String) (network : SignerChoice → Option Error)
    (hne : keyStr ≠ "") (err : Error) (hdec : (DecodeString keyStr).2 = some err) :
    startup keyStr network = (some err, ["Failed to decode 256-bit key from base64"]) ∧
    exitStatus keyStr network = 1 := by
  have h1 : startup keyStr network = (some err, ["Failed to decode 256-bit key from base64"]) := by
    unfold startup
    rw [if_neg hne]
    simp only [hdec]
    rw [dif_pos (by simp)]
  exact ⟨h1, by unfold exitStatus; rw [h1]⟩

/-- A non-empty key that is valid base64 for other than 32 bytes makes the
closure return the nil error of `DecodeString`, and the exit status is 0. -/
theorem startup_wrong_length (keyStr : String) (network : SignerChoice → Option Error)
    (hne : keyStr ≠ "") (hdec : (DecodeString keyStr).2 = none)
    (hlen : (DecodeString keyStr).1.length ≠ KeyLength) :
    startup keyStr network = (none, ["Failed to decode 256-bit key from base64"]) ∧
    exitStatus keyStr network = 0 := by
  have h1 : startup keyStr network = (none, ["Failed to decode 256-bit key from base64"]) := by
    unfold startup
    rw [if_neg hne]
    simp only
    rw [dif_pos (Or.inr hlen), hdec]
  exact ⟨h1, by unfold exitStatus; rw [h1]⟩

/-- Claim C7, at the key `AAAA`: it is valid base64 for three zero bytes, the
key handling logs its diagnostic and returns the nil error of `DecodeString`
without reaching the network code, and the exit status is 0. -/
theorem wrong_length_key_exits_zero (network : SignerChoice → Option Error) :
    DecodeString "AAAA" = ([0, 0, 0], none) ∧
    startup "AAAA" network = (none, ["Failed to decode 256-bit key from base64"]) ∧
    exitStatus "AAAA" network = 0 :=
  ⟨by decide, (startup_wrong_length "AAAA" network (by decide) (by decide) (by decide)).1,
    (startup_wrong_length "AAAA" network (by decide) (by decide) (by decide)).2⟩

/-- Claim C6, on the relay with clients 1 and 2 where the peer of client 2
has gone.  When the read loop of client 2 is what notices, client 1 is sent the
departure notice once.  When a broadcast notices first, its failed send
removes and closes client 2 and owes the notice; after that broadcast and
then the read loop of the closed client 2 have run, client 1 has been sent
the notice twice. -/
theorem departure_notice_sent_twice :
    (relayTwo.readLoop 1 2).map (fun r => (r.1.clients, (r.1.objs 1).conn.tx, r.2)) =
      some ([1],
        [52, 0, 0, 0, 0, 0, 0, 0] ++ strBytes "Client 2 has disconnected\n", []) ∧
    (relayTwo.BroadcastMsg (strBytes "1: hi")).2 = (none, [2]) ∧
    (relayTwo.BroadcastMsg (strBytes "1: hi")).1.clients = [1] ∧
    ((relayTwo.BroadcastMsg (strBytes "1: hi")).1.objs 2).Done = true ∧
    (((relayTwo.BroadcastMsg (strBytes "1: hi")).1.BroadcastMsg (disconnectedNotice 2)).1.readLoop
        1 2).map (fun r => (r.1.clients, (r.1.objs 1).conn.tx, r.2)) =
      some ([1],
        [10, 0, 0, 0, 0, 0, 0, 0] ++ strBytes "1: hi" ++
          ([52, 0, 0, 0, 0, 0, 0, 0] ++ strBytes "Client 2 has disconnected\n") ++
          ([52, 0, 0, 0, 0, 0, 0, 0] ++ strBytes "Client 2 has disconnected\n"), []) := by
  refine ⟨by decide, by decide, by decide, by decide, by decide⟩

/-- The round trip of claim C1 on the message `[1, 2, 3]` followed by one
more byte. -/
theorem framing_round_trip_witness :
    (idleClient 1 [6, 0, 0, 0, 0, 0, 0, 0, 1, 2, 3, 9]).GetMsg =
      (idleClient 1 [9], [1, 2, 3], none) := by
  obtain ⟨hdr, hput, _, _, _, hget⟩ := framing_round_trip
    (idleClient 2 []) (idleClient 1 [6, 0, 0, 0, 0, 0, 0, 0, 1, 2, 3, 9])
    [1, 2, 3] [9] (by decide) (by decide) ⟨rfl, rfl⟩ rfl
  have h6 : PutVarint sizeBuf (([1, 2, 3] : List Byte).length : Int) =
      some [6, 0, 0, 0, 0, 0, 0, 0] := by decide
  rw [h6] at hput
  cases hput
  exact hget rfl

/-- The rejection of claim C2 on a header that decodes to `-1`. -/
theorem nonpositive_length_rejected_witness :
    Varint [1, 0, 0, 0, 0, 0, 0, 0] = (-1, 1) ∧
    (idleClient 1 [1, 0, 0, 0, 0, 0, 0, 0, 7, 7]).GetMsg =
      (idleClient 1 [7, 7], [], some Error.FailedToDecodeSize) :=
  ⟨by decide,
    (nonpositive_length_rejected (idleClient 1 [1, 0, 0, 0, 0, 0, 0, 0, 7, 7])
      [1, 0, 0, 0, 0, 0, 0, 0] [7, 7] rfl rfl rfl (by decide)).1⟩

/-- The empty message of claim C10 between two fresh clients. -/
theorem empty_message_unreceivable_witness :
    ((idleClient 1 []).SendMsg []).2 = none ∧
    ((idleClient 1 []).SendMsg []).1.conn.tx = [0, 0, 0, 0, 0, 0, 0, 0] ∧
    (idleClient 2 [0, 0, 0, 0, 0, 0, 0, 0]).GetMsg =
      (idleClient 2 [], [], some Error.FailedToDecodeSize) := by
  have h := empty_message_unreceivable (idleClient 1 [])
    (idleClient 2 [0, 0, 0, 0, 0, 0, 0, 0]) [] ⟨rfl, rfl⟩ rfl
  refine ⟨?_, ?_, h.2 rfl⟩
  · rw [h.1]
  · rw [h.1]; rfl

/-- The stand-in package opens what it has sealed. -/
theorem toyPkg_inverts (msg : List Byte) (nonce : Bytes NonceLength) (key : Bytes KeyLength) :
    toyPkg.Open (toyPkg.Seal msg nonce key) nonce key = some msg := by
  obtain ⟨n, hn⟩ := nonce
  obtain ⟨k, hk⟩ := key
  match n, hn, k, hk with
  | a :: n, _, b :: k, _ => simp [toyPkg]
  | [], hn, _, _ => simp [NonceLength] at hn
  | _ :: _, _, [], hk => simp [KeyLength] at hk

/-- The round trip of claim C3 with the stand-in package. -/
theorem secretbox_round_trip_witness :
    (NewSecretBox toyKey).Decode toyPkg
      ((NewSecretBox toyKey).Encode toyPkg (List.replicate 24 5) [104, 105]).1 =
      ([104, 105], none) :=
  (secretbox_round_trip toyPkg (NewSecretBox toyKey) (List.replicate 24 5) [104, 105]
    (by decide) toyPkg_inverts).2.2.2.2

/-- The isolation of claim C8 on the relay whose client 2 cannot be written
to. -/
theorem send_failure_isolated_witness :
    (relayTwo.BroadcastMsg (strBytes "1: hi")).2.1 = none ∧
    (relayTwo.BroadcastMsg (strBytes "1: hi")).1.clients = [1] :=
  ⟨(send_failure_isolated relayTwo (strBytes "1: hi") (strBytes "1: hi")
      (by decide) (by decide) rfl).1,
    (send_failure_isolated relayTwo (strBytes "1: hi") (strBytes "1: hi")
      (by decide) (by decide) rfl).2.1.trans (by decide)⟩

/-- The fan-out of claim C5 with the pass-through codec: sender 3 sending
"hi" puts the frame of "3: hi" on the connection of every member. -/
theorem broadcast_fan_out_witness :
    ((relayThree.readLoopBody 3).1.objs 1).conn.tx =
      [10, 0, 0, 0, 0, 0, 0, 0] ++ strBytes "3: hi" ∧
    ((relayThree.readLoopBody 3).1.objs 2).conn.tx =
      [10, 0, 0, 0, 0, 0, 0, 0] ++ strBytes "3: hi" ∧
    ((relayThree.readLoopBody 3).1.objs 3).conn.tx =
      [10, 0, 0, 0, 0, 0, 0, 0] ++ strBytes "3: hi" := by
  have h := (broadcast_fan_out relayThree 3
    (idleClient 3 [])
    (strBytes "hi") (strBytes "hi") (strBytes "3: hi")
    (by decide) (by decide) (by decide) rfl (by decide) rfl rfl).2
  refine ⟨?_, ?_, ?_⟩
  · rw [h 1 (by decide)]; decide
  · rw [h 2 (by decide)]; decide
  · rw [h 3 (by decide)]; decide

/-- The identities of claim C9 for three connections created from the
counter value 0. -/
theorem identity_uniqueness_witness :
    (newClients [freshConn, deadConn, freshConn] 0).map Client.GetID = [1, 2, 3] :=
  (identity_uniqueness [freshConn, deadConn, freshConn] 0 (by decide)).1

end Ep2pchat
